import Mathlib

namespace SalesAggregator

/-! # C library fragments used by the aggregator and the branch server

Byte strings are lists of characters.  A C string never holds the NUL byte;
where the programs turn a byte buffer into a C string, the cut at the first
NUL is written out with `cstr`.  Only defined behaviour is modelled: a store
past the end of a destination array is outside the model. -/

/-- The terminating byte of a C string. -/
def NUL : Char := Char.ofNat 0

/-- The C string stored in a byte buffer: the bytes before the first NUL. -/
def cstr (buf : List Char) : List Char := buf.takeWhile (fun c => c != NUL)

/-- The function `isspace` of the C locale: space, \t, \n, \v, \f, \r. -/
def isspace (c : Char) : Bool :=
  c.toNat == 32 || (9 ≤ c.toNat && c.toNat ≤ 13)

/-- The function `isdigit`. -/
def isdigit (c : Char) : Bool := 48 ≤ c.toNat && c.toNat ≤ 57

/-- Value of a decimal digit character. -/
def digitVal (c : Char) : Nat := c.toNat - 48

/-- Value of a run of decimal digits, most significant first. -/
def digitsVal (ds : List Char) : Nat := ds.foldl (fun a c => 10 * a + digitVal c) 0

/-- The character of a decimal digit. -/
def digitChar (d : Nat) : Char := Char.ofNat (48 + d)

/-- Decimal digits of a natural number by repeated division; `fuel` bounds the recursion. -/
def natToDecF : Nat → Nat → List Char
  | 0, _ => []
  | fuel + 1, n =>
    if n < 10 then [digitChar n] else natToDecF fuel (n / 10) ++ [digitChar (n % 10)]

/-- Decimal text of a natural number. -/
def natToDec (n : Nat) : List Char := natToDecF (n + 1) n

/-- The function `strstr`: the suffix of `hay` that starts at the first occurrence of `needle`. -/
def strstr : List Char → List Char → Option (List Char)
  | [], needle => if needle.isEmpty then some [] else none
  | c :: cs, needle => if needle.isPrefixOf (c :: cs) then some (c :: cs) else strstr cs needle

/-- A double as the programs see it through `sscanf` and `printf`: the exact decimal
`(-1)^neg * mant * 10^exp10` that was read, or an infinity, or a NaN.  Rounding to
binary64 and the range of the type are not modelled. -/
inductive CDouble where
  | fin (neg : Bool) (mant : Nat) (exp10 : Int)
  | inf (neg : Bool)
  | nan (neg : Bool)
  deriving DecidableEq, Repr

/-- The rational value of a finite double. -/
def CDouble.toRat : CDouble → Option ℚ
  | .fin neg mant exp10 => some ((if neg then -1 else 1) * (mant : ℚ) * (10 : ℚ) ^ exp10)
  | _ => none

/-- The double whose value is `c` hundredths. -/
def CDouble.ofCents (c : Int) : CDouble := .fin (decide (c < 0)) c.natAbs (-2)

/-- The value a `long` keeps of a decimal that `strtol` read: out of range values are clamped. -/
def clampLong (v : Int) : Int := max (-(2 ^ 63)) (min v (2 ^ 63 - 1))

/-- Storing a `long` into an `int` keeps the low 32 bits (two's complement). -/
def toInt32 (v : Int) : Int := (clampLong v + 2 ^ 31) % 2 ^ 32 - 2 ^ 31

/-- The literal characters of a `sscanf` format have to match the input one by one. -/
def matchLit : List Char → List Char → Option (List Char)
  | [], s => some s
  | _ :: _, [] => none
  | f :: fs, c :: cs => if f = c then matchLit fs cs else none

/-- A white-space directive of a `sscanf` format skips any amount of white space. -/
def skipSpace (s : List Char) : List Char := s.dropWhile isspace

/-- An optional sign in front of a number. -/
def splitSign : List Char → Bool × List Char
  | '-' :: r => (true, r)
  | '+' :: r => (false, r)
  | r => (false, r)

/-- The conversion `%s`: skips white space, then takes the characters up to the next
white space; fails when the input ends first. -/
def scanStr (s : List Char) : Option (List Char) :=
  let t := (skipSpace s).takeWhile (fun c => !isspace c)
  if t.isEmpty then none else some t

/-- The conversion `%d`: skips white space, reads an optional sign and a non-empty run of
digits, and stores the value as glibc does for an `int` (ISO C leaves out of range
values undefined). -/
def scanInt (s : List Char) : Option Int :=
  let sr := splitSign (skipSpace s)
  let ds := sr.2.takeWhile isdigit
  if ds.isEmpty then none
  else some (toInt32 (if sr.1 then -(digitsVal ds : Int) else (digitsVal ds : Int)))

/-- Whether `s` starts with the lower-case word `w`, letter case ignored. -/
def startsWithCI (w s : List Char) : Bool := w.isPrefixOf (s.map Char.toLower)

/-- The exponent part of a decimal floating constant, 0 when there is none. -/
def scanExp : List Char → Int
  | [] => 0
  | c :: r =>
    if c = 'e' ∨ c = 'E' then
      let sr := splitSign r
      let ds := sr.2.takeWhile isdigit
      if ds.isEmpty then 0
      else if sr.1 then -(digitsVal ds : Int) else (digitsVal ds : Int)
    else 0

/-- The number after the sign of a `%lf` conversion: `inf` or `infinity`, `nan`, or a
decimal floating constant with at least one digit.  As in glibc, an `i` after `inf` has
to begin `inity`.  The hexadecimal form `0x...` is not modelled (the model reads its
leading `0`). -/
def scanUnsigned (neg : Bool) (s : List Char) : Option CDouble :=
  if startsWithCI "inf".toList s then
    if startsWithCI "i".toList (s.drop 3) && !startsWithCI "inity".toList (s.drop 3) then none
    else some (.inf neg)
  else if startsWithCI "nan".toList s then some (.nan neg)
  else
    let ip := s.takeWhile isdigit
    let r1 := s.dropWhile isdigit
    let fp := match r1 with
      | '.' :: t => t.takeWhile isdigit
      | _ => []
    let r2 := match r1 with
      | '.' :: t => t.dropWhile isdigit
      | _ => r1
    if ip.isEmpty && fp.isEmpty then none
    else some (.fin neg (digitsVal (ip ++ fp)) (scanExp r2 - fp.length))

/-- The conversion `%lf`: skips white space, reads an optional sign and then the number. -/
def scanDouble (s : List Char) : Option CDouble :=
  let sr := splitSign (skipSpace s)
  scanUnsigned sr.1 sr.2

/-- The conversion `%d` of `printf`. -/
def fmt_d (v : Int) : List Char :=
  if v < 0 then '-' :: natToDec v.natAbs else natToDec v.natAbs

/-- The magnitude of `mant * 10^exp10` in hundredths, rounded to nearest, ties to even. -/
def roundCents (mant : Nat) (exp10 : Int) : Nat :=
  if -2 ≤ exp10 then mant * 10 ^ (exp10 + 2).toNat
  else
    let d := 10 ^ (-exp10 - 2).toNat
    let q := mant / d
    let r := mant % d
    if d < 2 * r ∨ (2 * r = d ∧ q % 2 = 1) then q + 1 else q

/-- The conversion `%.2f` of `printf`. -/
def fmt_2f : CDouble → List Char
  | .fin neg mant exp10 =>
    let c := roundCents mant exp10
    (if neg then ['-'] else []) ++ natToDec (c / 100)
      ++ '.' :: [digitChar (c % 100 / 10), digitChar (c % 10)]
  | .inf neg => (if neg then ['-'] else []) ++ "inf".toList
  | .nan neg => (if neg then ['-'] else []) ++ "nan".toList

/-! # The wire format: `handle_client` (branch server) and `parse_reply` (aggregator) -/

/-- What a reply carries. -/
structure BranchResult where
  branch_id : List Char
  records : Int
  subtotal : CDouble
  deriving DecidableEq, Repr

/-- The reply `handle_client` formats into `char out[512]` with
`snprintf(out, sizeof(out), "BRANCH_ID: %s\nRECORDS: %d\nSUBTOTAL: %.2f\nEND\n", ...)`:
at most 511 characters are kept. -/
def handle_client_out (branch_id : List Char) (count : Int) (subtotal : CDouble) : List Char :=
  ("BRANCH_ID: ".toList ++ branch_id ++ "\nRECORDS: ".toList ++ fmt_d count
    ++ "\nSUBTOTAL: ".toList ++ fmt_2f subtotal ++ "\nEND\n".toList).take 511

/-- The line `BRANCH_ID: <id>` of a reply, printed as `handle_client` prints it. -/
def branch_id_line (branch_id : List Char) : List Char :=
  "BRANCH_ID: ".toList ++ branch_id ++ ['\n']

/-- The line `RECORDS: <n>` of a reply. -/
def records_line (count : Int) : List Char := "RECORDS: ".toList ++ fmt_d count ++ ['\n']

/-- The line `SUBTOTAL: <amount>` of a reply. -/
def subtotal_line (subtotal : CDouble) : List Char :=
  "SUBTOTAL: ".toList ++ fmt_2f subtotal ++ ['\n']

/-- The line `END` that closes a reply. -/
def end_line : List Char := "END\n".toList

/-- The call `sscanf(p, "BRANCH_ID: %s", branch_id) == 1`. -/
def sscanf_branch_id (p : List Char) : Option (List Char) :=
  (matchLit "BRANCH_ID:".toList p).bind (fun r => scanStr (skipSpace r))

/-- The call `sscanf(p, "RECORDS: %d", records) == 1`. -/
def sscanf_records (p : List Char) : Option Int :=
  (matchLit "RECORDS:".toList p).bind (fun r => scanInt (skipSpace r))

/-- The call `sscanf(p, "SUBTOTAL: %lf", subtotal) == 1`. -/
def sscanf_subtotal (p : List Char) : Option CDouble :=
  (matchLit "SUBTOTAL:".toList p).bind (fun r => scanDouble (skipSpace r))

/-- The function `parse_reply`: `none` is the return value -1.  The parameter `bid_len`
of the source is never used and is left out. -/
def parse_reply (reply : List Char) : Option BranchResult :=
  match strstr reply "BRANCH_ID:".toList with
  | none => none
  | some p =>
    match sscanf_branch_id p with
    | none => none
    | some branch_id =>
      match strstr reply "RECORDS:".toList with
      | none => none
      | some p =>
        match sscanf_records p with
        | none => none
        | some records =>
          match strstr reply "SUBTOTAL:".toList with
          | none => none
          | some p =>
            match sscanf_subtotal p with
            | none => none
            | some subtotal => some ⟨branch_id, records, subtotal⟩

/-! # The ledger writer `update_main_csv` -/

/-- A file system: the bytes of the file at each path, `none` where there is no file. -/
abbrev FS := List Char → Option (List Char)

/-- Creating or replacing the file at `path` with `data`. -/
def FS.write (fs : FS) (path data : List Char) : FS :=
  fun p => if p = path then some data else fs p

/-- The call `rename(old, new)` when it succeeds: `new` names the file `old` named and
`old` is gone; nothing happens when both are the same path. -/
def FS.rename (fs : FS) (old new : List Char) : FS :=
  if old = new then fs
  else fun p => if p = new then fs old else if p = old then none else fs p

/-- Broken-down UTC time, as `gmtime_r` delivers it (`year` is the full year, `mon` counts
from 1). -/
structure Tm where
  year : Nat
  mon : Nat
  mday : Nat
  hour : Nat
  min : Nat
  sec : Nat
  deriving DecidableEq, Repr

/-- The time of the examples: 2024-03-09T07:05:00Z. -/
def tm0 : Tm := ⟨2024, 3, 9, 7, 5, 0⟩

/-- A field of `strftime` that is padded with zeros to two digits. -/
def pad2 (n : Nat) : List Char := (if n < 10 then ['0'] else []) ++ natToDec n

/-- The function `iso_time`: `strftime(buf, n, "%Y-%m-%dT%H:%M:%SZ", &tm)`. -/
def iso_time (tm : Tm) : List Char :=
  natToDec tm.year ++ '-' :: pad2 tm.mon ++ '-' :: pad2 tm.mday ++ 'T' :: pad2 tm.hour
    ++ ':' :: pad2 tm.min ++ ':' :: pad2 tm.sec ++ ['Z']

/-- What the environment decides during one call of `update_main_csv`: whether each call
whose result the function checks succeeds, and the time `iso_time` reads.  The calls
whose result is not checked (`fseek`, `ftell`, `fread`, `fputs`, `fprintf`, `fflush`,
`fsync`, `fclose`) are taken to succeed. -/
structure Sys where
  fopen_ok : Bool
  flock_ok : Bool
  malloc_ok : Bool
  fopen_tmp_ok : Bool
  rename_ok : Bool
  now : Tm
  deriving DecidableEq, Repr

/-- The row `fprintf(tf, "%s,%s,%d,%.2f,%s\n", timestr, branch_id, records, subtotal, timestr)`
writes. -/
def ledger_row (timestr branch_id : List Char) (records : Int) (subtotal : CDouble) : List Char :=
  timestr ++ ',' :: branch_id ++ ',' :: fmt_d records ++ ',' :: fmt_2f subtotal
    ++ ',' :: timestr ++ ['\n']

/-- The name `snprintf(tmpname, sizeof(tmpname), "%s.tmp", main_csv)` leaves in
`char tmpname[512]`: at most 511 characters. -/
def tmpname (main_csv : List Char) : List Char := (main_csv ++ ".tmp".toList).take 511

/-- The first part of `update_main_csv`, up to `fclose(tf)`: the file system with the
temporary file written, or `none` when one of the earlier steps failed (the function then
returns -1 and has written nothing).  `fputs` writes the buffer as a C string. -/
def write_tmp (sys : Sys) (fs : FS) (main_csv branch_id : List Char) (records : Int)
    (subtotal : CDouble) : Option FS :=
  match (if sys.fopen_ok then fs main_csv else none) with
  | none => none
  | some bytes =>
    if !sys.flock_ok then none
    else if !sys.malloc_ok then none
    else if !sys.fopen_tmp_ok then none
    else
      some (fs.write (tmpname main_csv)
        (cstr bytes ++ ledger_row (iso_time sys.now) branch_id records subtotal))

/-- The function `update_main_csv`: its return value and the file system it leaves. -/
def update_main_csv (sys : Sys) (fs : FS) (main_csv branch_id : List Char) (records : Int)
    (subtotal : CDouble) : Int × FS :=
  match write_tmp sys fs main_csv branch_id records subtotal with
  | none => (-1, fs)
  | some fs1 =>
    if sys.rename_ok then (0, fs1.rename (tmpname main_csv) main_csv) else (-1, fs1)

/-- An environment in which every checked call succeeds. -/
def Sys.all_ok (tm : Tm) : Sys := ⟨true, true, true, true, true, tm⟩

/-- A file system with the ledger `main.csv` only. -/
def fs_ledger (bytes : List Char) : FS := FS.write (fun _ => none) "main.csv".toList bytes

/-- A path of 511 characters: a directory of 255 and a file name of 255. -/
def long_path : List Char := List.replicate 255 'a' ++ '/' :: List.replicate 255 'b'

/-! # The aggregator's `main` -/

/-- How one call of `select` ends.  `ready elapsed data` lists the descriptors on which
input or an end of stream is pending together with the bytes that are there to receive
(none for a closed or failed connection); `select` returns how many of them are in the
set it was given, and 0 is the expiry of the time-out. -/
inductive SelectEvent where
  | eintr (elapsed : Nat)
  | error (elapsed : Nat)
  | ready (elapsed : Nat) (data : List (Int × List Char))
  deriving DecidableEq, Repr

/-- The time a call of `select` took. -/
def SelectEvent.elapsed : SelectEvent → Nat
  | .eintr e => e
  | .error e => e
  | .ready e _ => e

/-- A decimal digit character. -/
def IsDig (c : Char) : Prop := ∃ d, d < 10 ∧ c = digitChar d

/-- The characters `%d` and `%.2f` print for a number. -/
def NumChar (c : Char) : Prop := IsDig c ∨ c = '-' ∨ c = '.'

/-- The value of a labelled field as a reader of the reply sees it: the text after the
first occurrence of the label, blanks skipped, up to the end of that line. -/
def field_text (label buf : List Char) : Option (List Char) :=
  (strstr buf label).map fun p =>
    ((p.drop label.length).dropWhile (fun c => c == ' ')).takeWhile (fun c => c != '\n')

/-- A decimal numeral: an optional sign, digits, and at most one point among them. -/
def numeric_text (s : List Char) : Bool :=
  let body := (splitSign s).2
  let ip := body.takeWhile isdigit
  let rest := body.dropWhile isdigit
  match rest with
  | [] => !ip.isEmpty
  | '.' :: t => t.all isdigit && !(ip.isEmpty && t.isEmpty)
  | _ => false

/-- Whether a text begins, after white space and an optional sign, with a decimal digit:
what `%d` needs to convert anything. -/
def starts_integer (s : List Char) : Bool :=
  match (splitSign (skipSpace s)).2 with
  | c :: _ => isdigit c
  | [] => false

/-- Whether a text begins, after white space and an optional sign, with a digit, with a
point and a digit, or with `inf` or `nan`: what `%lf` needs to convert anything. -/
def starts_double (s : List Char) : Bool :=
  let r := (splitSign (skipSpace s)).2
  startsWithCI "inf".toList r || startsWithCI "nan".toList r ||
    match r with
    | '.' :: c :: _ => isdigit c
    | c :: _ => isdigit c
    | [] => false

/-! # Facts about the C library fragments -/

theorem isDig_digitChar {d : Nat} (h : d < 10) : IsDig (digitChar d) := ⟨d, h, rfl⟩

theorem isdigit_of_isDig {c : Char} (h : IsDig c) : isdigit c = true := by
  obtain ⟨d, hd, rfl⟩ := h
  interval_cases d <;> rfl

theorem not_isspace_of_isDig {c : Char} (h : IsDig c) : isspace c = false := by
  obtain ⟨d, hd, rfl⟩ := h
  interval_cases d <;> rfl

theorem toLower_of_isDig {c : Char} (h : IsDig c) : c.toLower = c := by
  obtain ⟨d, hd, rfl⟩ := h
  interval_cases d <;> rfl

theorem ne_of_isDig_of_not_isdigit {c x : Char} (h : IsDig c) (hx : isdigit x = false) :
    c ≠ x := by
  intro e
  rw [← e, isdigit_of_isDig h] at hx
  exact absurd hx (by decide)

theorem digitVal_digitChar {d : Nat} (h : d < 10) : digitVal (digitChar d) = d := by
  interval_cases d <;> rfl

/-- The double of `c` hundredths has the value `c / 100`. -/
theorem ofCents_toRat (c : Int) : (CDouble.ofCents c).toRat = some ((c : ℚ) / 100) := by
  unfold CDouble.ofCents CDouble.toRat
  simp only [Option.some.injEq]
  have h10 : (10 : ℚ) ^ (-2 : ℤ) = 1 / 100 := by norm_num
  rw [h10, Nat.cast_natAbs]
  by_cases h : c < 0
  · simp only [h, decide_True, if_true]
    rw [abs_of_neg h]
    push_cast
    ring
  · simp only [h, decide_False, Bool.false_eq_true, if_false]
    rw [abs_of_nonneg (not_lt.1 h)]
    ring

theorem natToDecF_fuel : ∀ (f g n : Nat), n < f → n < g → natToDecF f n = natToDecF g n := by
  intro f
  induction f with
  | zero => intro g n h; omega
  | succ f ih =>
    intro g n hf hg
    cases g with
    | zero => omega
    | succ g =>
      simp only [natToDecF]
      by_cases h10 : n < 10
      · simp [h10]
      · simp only [h10, if_false]
        have : n / 10 < n := Nat.div_lt_self (by omega) (by omega)
        rw [ih g (n / 10) (by omega) (by omega)]

theorem natToDecF_succ (f n : Nat) :
    natToDecF (f + 1) n
      = if n < 10 then [digitChar n] else natToDecF f (n / 10) ++ [digitChar (n % 10)] := rfl

theorem natToDec_eq (n : Nat) :
    natToDec n = if n < 10 then [digitChar n] else natToDec (n / 10) ++ [digitChar (n % 10)] := by
  have e1 : natToDec n = natToDecF (n + 1) n := rfl
  have e2 : natToDec (n / 10) = natToDecF (n / 10 + 1) (n / 10) := rfl
  rw [e1, e2, natToDecF_succ n n]
  by_cases h10 : n < 10
  · simp [h10]
  · simp only [h10, if_false]
    have : n / 10 < n := Nat.div_lt_self (by omega) (by omega)
    rw [natToDecF_fuel n (n / 10 + 1) (n / 10) (by omega) (by omega)]

theorem natToDec_lt {n : Nat} (h : n < 10) : natToDec n = [digitChar n] := by
  rw [natToDec_eq, if_pos h]

theorem natToDec_ge {n : Nat} (h : ¬ n < 10) :
    natToDec n = natToDec (n / 10) ++ [digitChar (n % 10)] := by
  rw [natToDec_eq, if_neg h]

theorem natToDec_isDig (n : Nat) : ∀ c ∈ natToDec n, IsDig c := by
  induction n using Nat.strong_induction_on with
  | _ n ih =>
    by_cases h10 : n < 10
    · rw [natToDec_lt h10]
      intro c hc
      rw [List.mem_singleton] at hc
      exact hc ▸ isDig_digitChar h10
    · rw [natToDec_ge h10]
      intro c hc
      rcases List.mem_append.1 hc with h | h
      · exact ih (n / 10) (Nat.div_lt_self (by omega) (by omega)) c h
      · rw [List.mem_singleton] at h
        exact h ▸ isDig_digitChar (Nat.mod_lt _ (by omega))

theorem natToDec_ne_nil (n : Nat) : natToDec n ≠ [] := by
  rw [natToDec_eq]
  split <;> simp

theorem digitsVal_append_singleton (l : List Char) (c : Char) :
    digitsVal (l ++ [c]) = 10 * digitsVal l + digitVal c := by
  simp [digitsVal, List.foldl_append]

theorem digitsVal_natToDec (n : Nat) : digitsVal (natToDec n) = n := by
  induction n using Nat.strong_induction_on with
  | _ n ih =>
    by_cases h10 : n < 10
    · rw [natToDec_lt h10]
      simp [digitsVal, digitVal_digitChar h10]
    · rw [natToDec_ge h10, digitsVal_append_singleton,
        ih (n / 10) (Nat.div_lt_self (by omega) (by omega)),
        digitVal_digitChar (Nat.mod_lt _ (by omega))]
      omega

theorem natToDec_length_le : ∀ (k n : Nat), n < 10 ^ (k + 1) → (natToDec n).length ≤ k + 1 := by
  intro k
  induction k with
  | zero =>
    intro n h
    rw [natToDec_lt (by simpa using h)]
    simp
  | succ k ih =>
    intro n h
    by_cases h10 : n < 10
    · rw [natToDec_lt h10]; simp
    · rw [natToDec_ge h10, List.length_append]
      have : n / 10 < 10 ^ (k + 1) := by
        rw [Nat.div_lt_iff_lt_mul (by omega)]
        rw [pow_succ] at h
        exact h
      have := ih (n / 10) this
      simp
      omega

theorem takeWhile_append_stop {p : Char → Bool} (l : List Char) (c : Char) (r : List Char)
    (hl : ∀ x ∈ l, p x = true) (hc : p c = false) : (l ++ c :: r).takeWhile p = l := by
  induction l with
  | nil => simp [List.takeWhile, hc]
  | cons a l ih =>
    rw [List.cons_append, List.takeWhile_cons, hl a (List.mem_cons_self _ _),
      ih (fun x hx => hl x (List.mem_cons_of_mem _ hx))]
    rfl

theorem dropWhile_append_stop {p : Char → Bool} (l : List Char) (c : Char) (r : List Char)
    (hl : ∀ x ∈ l, p x = true) (hc : p c = false) : (l ++ c :: r).dropWhile p = c :: r := by
  induction l with
  | nil => simp [List.dropWhile, hc]
  | cons a l ih =>
    rw [List.cons_append, List.dropWhile_cons, hl a (List.mem_cons_self _ _)]
    exact ih (fun x hx => hl x (List.mem_cons_of_mem _ hx))

theorem strstr_of_isPrefixOf {needle : List Char} (c : Char) (cs : List Char)
    (h : needle.isPrefixOf (c :: cs) = true) : strstr (c :: cs) needle = some (c :: cs) := by
  simp [strstr, h]

theorem prefix_of_prefix_append_sep {needle a b : List Char} {c : Char}
    (h : needle <+: a ++ c :: b) (hc : c ∉ needle) : needle <+: a := by
  by_cases hlen : needle.length ≤ a.length
  · exact List.prefix_of_prefix_length_le h (List.prefix_append a (c :: b)) hlen
  · exfalso
    have h1 : a ++ [c] <+: a ++ c :: b := by
      have : a ++ c :: b = (a ++ [c]) ++ b := by simp
      rw [this]
      exact List.prefix_append _ _
    have h2 : a ++ [c] <+: needle :=
      List.prefix_of_prefix_length_le h1 h (by simp; omega)
    exact hc (h2.subset (by simp))

theorem strstr_skip {needle : List Char} (hne : needle ≠ []) (c : Char) (hc : c ∉ needle) :
    ∀ (a b : List Char), strstr a needle = none →
      strstr (a ++ c :: b) needle = strstr b needle := by
  intro a
  induction a with
  | nil =>
    intro b _
    have hp : needle.isPrefixOf (c :: b) = false := by
      cases needle with
      | nil => exact absurd rfl hne
      | cons n0 ns =>
        have : n0 ≠ c := fun e => hc (e ▸ List.mem_cons_self _ _)
        simp [List.isPrefixOf, this]
    simp [strstr, hp]
  | cons x a ih =>
    intro b h
    rw [strstr] at h
    by_cases hp : needle.isPrefixOf (x :: a) = true
    · simp [hp] at h
    · simp only [hp] at h
      have hq : needle.isPrefixOf (x :: (a ++ c :: b)) = false := by
        by_contra hq
        rw [Bool.not_eq_false] at hq
        have h1 : needle <+: (x :: a) ++ c :: b := List.isPrefixOf_iff_prefix.1 hq
        exact hp (List.isPrefixOf_iff_prefix.2 (prefix_of_prefix_append_sep h1 hc))
      rw [List.cons_append, strstr, hq]
      exact ih b (by simpa using h)

theorem strstr_none_of_head_not_mem (n0 : Char) (ns : List Char) :
    ∀ (b : List Char), n0 ∉ b → strstr b (n0 :: ns) = none := by
  intro b
  induction b with
  | nil => intro _; simp [strstr]
  | cons x b ih =>
    intro h
    have hx : n0 ≠ x := fun e => h (e ▸ List.mem_cons_self _ _)
    have hb : n0 ∉ b := fun e => h (List.mem_cons_of_mem _ e)
    simp [strstr, List.isPrefixOf, hx, ih hb]

theorem matchLit_append (l r : List Char) : matchLit l (l ++ r) = some r := by
  induction l with
  | nil => cases r <;> rfl
  | cons a l ih => simp [matchLit, ih]

theorem skipSpace_of_head {c : Char} (r : List Char) (hc : isspace c = false) :
    skipSpace (c :: r) = c :: r := by
  simp [skipSpace, List.dropWhile_cons, hc]

theorem skipSpace_space (r : List Char) : skipSpace (' ' :: r) = skipSpace r := by
  simp [skipSpace, List.dropWhile_cons, isspace]

theorem splitSign_of_isDig {c : Char} (h : IsDig c) (r : List Char) :
    splitSign (c :: r) = (false, c :: r) := by
  obtain ⟨d, hd, rfl⟩ := h
  interval_cases d <;> rfl

theorem natToDec_cons (n : Nat) : ∃ c t, natToDec n = c :: t ∧ IsDig c := by
  cases h : natToDec n with
  | nil => exact absurd h (natToDec_ne_nil n)
  | cons c t => exact ⟨c, t, rfl, natToDec_isDig n c (by rw [h]; exact List.mem_cons_self _ _)⟩

theorem toInt32_of_range {v : Int} (h1 : -(2 ^ 31) ≤ v) (h2 : v < 2 ^ 31) : toInt32 v = v := by
  unfold toInt32 clampLong
  norm_num at h1 h2 ⊢
  omega

/-- Reading back with `%s` a token that `%s` printed. -/
theorem scanStr_token (tok r : List Char) (hne : tok ≠ [])
    (htok : ∀ c ∈ tok, isspace c = false) :
    scanStr (skipSpace (' ' :: (tok ++ '\n' :: r))) = some tok := by
  obtain ⟨a, t, rfl⟩ := List.exists_cons_of_ne_nil hne
  have ha : isspace a = false := htok a (List.mem_cons_self _ _)
  rw [skipSpace_space, List.cons_append, skipSpace_of_head _ ha]
  unfold scanStr
  rw [skipSpace_of_head _ ha, ← List.cons_append,
    takeWhile_append_stop (a :: t) '\n' r (by intro x hx; simp [htok x hx]) (by decide)]
  simp

/-- Reading back with `%d` a number that `%d` printed. -/
theorem scanInt_fmt_d (n : Int) (r : List Char) :
    scanInt (skipSpace (' ' :: (fmt_d n ++ '\n' :: r))) = some (toInt32 n) := by
  obtain ⟨c, t, hct, hc⟩ := natToDec_cons n.natAbs
  have hall : ∀ x ∈ natToDec n.natAbs, isdigit x = true :=
    fun x hx => isdigit_of_isDig (natToDec_isDig _ x hx)
  have htw : (natToDec n.natAbs ++ '\n' :: r).takeWhile isdigit = natToDec n.natAbs :=
    takeWhile_append_stop _ _ _ hall (by decide)
  rw [skipSpace_space]
  unfold fmt_d scanInt
  by_cases hn : n < 0
  · simp only [hn, if_true, List.cons_append,
      skipSpace_of_head _ (show isspace '-' = false by decide)]
    have : splitSign ('-' :: (natToDec n.natAbs ++ '\n' :: r))
        = (true, natToDec n.natAbs ++ '\n' :: r) := rfl
    rw [this]
    simp only [htw, digitsVal_natToDec]
    rw [hct]
    simp only [List.isEmpty_cons, Bool.false_eq_true, if_false, if_true]
    congr 2
    omega
  · simp only [hn, if_false]
    have e : skipSpace (skipSpace (natToDec n.natAbs ++ '\n' :: r))
        = natToDec n.natAbs ++ '\n' :: r := by
      rw [hct, List.cons_append]
      simp only [skipSpace_of_head _ (not_isspace_of_isDig hc)]
    have e2 : splitSign (natToDec n.natAbs ++ '\n' :: r)
        = (false, natToDec n.natAbs ++ '\n' :: r) := by
      rw [hct, List.cons_append]
      exact splitSign_of_isDig hc _
    rw [e, e2]
    simp only [htw, digitsVal_natToDec]
    rw [hct]
    simp only [List.isEmpty_cons, Bool.false_eq_true, if_false]
    congr 2
    omega

theorem roundCents_neg_two (m : Nat) : roundCents m (-2) = m := by
  simp [roundCents]

theorem startsWithCI_of_isDig {c : Char} (h : IsDig c) (w : Char) (ws r : List Char)
    (hw : isdigit w = false) : startsWithCI (w :: ws) (c :: r) = false := by
  have hne : w ≠ c := fun e => ne_of_isDig_of_not_isdigit h hw e.symm
  simp [startsWithCI, List.isPrefixOf, toLower_of_isDig h, hne]

/-- Reading a decimal with two fraction digits after its sign. -/
theorem scanUnsigned_two_decimals (neg : Bool) (m : Nat) (r : List Char) :
    scanUnsigned neg (natToDec (m / 100)
        ++ '.' :: digitChar (m % 100 / 10) :: digitChar (m % 10) :: '\n' :: r)
      = some (.fin neg m (-2)) := by
  obtain ⟨c, t, hct, hc⟩ := natToDec_cons (m / 100)
  have hall : ∀ x ∈ natToDec (m / 100), isdigit x = true :=
    fun x hx => isdigit_of_isDig (natToDec_isDig _ x hx)
  have h1 : m % 100 / 10 < 10 := by omega
  have h2 : m % 10 < 10 := by omega
  have hd1 := isdigit_of_isDig (isDig_digitChar h1)
  have hd2 := isdigit_of_isDig (isDig_digitChar h2)
  have hip : (natToDec (m / 100)
      ++ '.' :: digitChar (m % 100 / 10) :: digitChar (m % 10) :: '\n' :: r).takeWhile isdigit
      = natToDec (m / 100) := takeWhile_append_stop _ _ _ hall (by decide)
  have hr1 : (natToDec (m / 100)
      ++ '.' :: digitChar (m % 100 / 10) :: digitChar (m % 10) :: '\n' :: r).dropWhile isdigit
      = '.' :: digitChar (m % 100 / 10) :: digitChar (m % 10) :: '\n' :: r :=
    dropWhile_append_stop _ _ _ hall (by decide)
  have hfp : (digitChar (m % 100 / 10) :: digitChar (m % 10) :: '\n' :: r).takeWhile isdigit
      = [digitChar (m % 100 / 10), digitChar (m % 10)] :=
    takeWhile_append_stop [digitChar (m % 100 / 10), digitChar (m % 10)] _ r
      (by intro x hx; simp at hx; rcases hx with rfl | rfl <;> assumption) (by decide)
  have hr2 : (digitChar (m % 100 / 10) :: digitChar (m % 10) :: '\n' :: r).dropWhile isdigit
      = '\n' :: r :=
    dropWhile_append_stop [digitChar (m % 100 / 10), digitChar (m % 10)] _ r
      (by intro x hx; simp at hx; rcases hx with rfl | rfl <;> assumption) (by decide)
  have hinf : startsWithCI "inf".toList (natToDec (m / 100)
      ++ '.' :: digitChar (m % 100 / 10) :: digitChar (m % 10) :: '\n' :: r) = false := by
    rw [hct]
    exact startsWithCI_of_isDig hc 'i' _ _ (by decide)
  have hnan : startsWithCI "nan".toList (natToDec (m / 100)
      ++ '.' :: digitChar (m % 100 / 10) :: digitChar (m % 10) :: '\n' :: r) = false := by
    rw [hct]
    exact startsWithCI_of_isDig hc 'n' _ _ (by decide)
  have hexp : scanExp ('\n' :: r) = 0 := by simp [scanExp]
  have hval : digitsVal (natToDec (m / 100)
      ++ [digitChar (m % 100 / 10), digitChar (m % 10)]) = m := by
    have : natToDec (m / 100) ++ [digitChar (m % 100 / 10), digitChar (m % 10)]
        = (natToDec (m / 100) ++ [digitChar (m % 100 / 10)]) ++ [digitChar (m % 10)] := by simp
    rw [this, digitsVal_append_singleton, digitsVal_append_singleton, digitsVal_natToDec,
      digitVal_digitChar h1, digitVal_digitChar h2]
    omega
  unfold scanUnsigned
  simp only [hinf, hnan, hip, hr1, hfp, hr2, hexp, hval]
  simp [natToDec_ne_nil]

/-- Reading back with `%lf` an amount in hundredths that `%.2f` printed. -/
theorem scanDouble_fmt_2f (c : Int) (r : List Char) :
    scanDouble (skipSpace (' ' :: (fmt_2f (.ofCents c) ++ '\n' :: r)))
      = some (.ofCents c) := by
  obtain ⟨d, t, hdt, hd⟩ := natToDec_cons (c.natAbs / 100)
  rw [skipSpace_space]
  unfold CDouble.ofCents fmt_2f scanDouble
  simp only [roundCents_neg_two]
  by_cases hn : c < 0
  · simp only [hn, decide_True, if_true, List.cons_append, List.nil_append, List.append_assoc,
      skipSpace_of_head _ (show isspace '-' = false by decide)]
    have : ∀ u, splitSign ('-' :: u) = (true, u) := fun _ => rfl
    rw [this]
    exact scanUnsigned_two_decimals true c.natAbs r
  · simp only [hn, decide_False, Bool.false_eq_true, if_false, List.nil_append,
      List.append_assoc, List.cons_append]
    have e : skipSpace (skipSpace (natToDec (c.natAbs / 100)
        ++ '.' :: digitChar (c.natAbs % 100 / 10) :: digitChar (c.natAbs % 10) :: '\n' :: r))
        = natToDec (c.natAbs / 100)
        ++ '.' :: digitChar (c.natAbs % 100 / 10) :: digitChar (c.natAbs % 10) :: '\n' :: r := by
      rw [hdt, List.cons_append]
      simp only [skipSpace_of_head _ (not_isspace_of_isDig hd)]
    have e2 : splitSign (natToDec (c.natAbs / 100)
        ++ '.' :: digitChar (c.natAbs % 100 / 10) :: digitChar (c.natAbs % 10) :: '\n' :: r)
        = (false, natToDec (c.natAbs / 100)
        ++ '.' :: digitChar (c.natAbs % 100 / 10) :: digitChar (c.natAbs % 10) :: '\n' :: r) := by
      rw [hdt, List.cons_append]
      exact splitSign_of_isDig hd _
    rw [e, e2]
    exact scanUnsigned_two_decimals false c.natAbs r

theorem handle_client_out_eq (id : List Char) (n : Int) (x : CDouble) :
    handle_client_out id n x
      = (branch_id_line id ++ records_line n ++ subtotal_line x ++ end_line).take 511 := by
  unfold handle_client_out branch_id_line records_line subtotal_line end_line
  simp only [List.append_assoc]
  rfl

theorem strstr_self_append (l0 : Char) (ls r : List Char) :
    strstr ((l0 :: ls) ++ r) (l0 :: ls) = some ((l0 :: ls) ++ r) :=
  strstr_of_isPrefixOf l0 (ls ++ r)
    (List.isPrefixOf_iff_prefix.2 (List.prefix_append (l0 :: ls) r))

/-- A line `K <value>` that holds no occurrence of the label `L` is passed over by `strstr`. -/
theorem strstr_skip_line {L : List Char} (K val rest : List Char) (hL : L ≠ [])
    (hsp : ' ' ∉ L) (hnl : '\n' ∉ L) (hK : strstr K L = none) (hval : strstr val L = none) :
    strstr ((K ++ ' ' :: val) ++ '\n' :: rest) L = strstr rest L := by
  apply strstr_skip hL '\n' hnl
  rw [strstr_skip hL ' ' hsp K val hK]
  exact hval

theorem fmt_d_numChar (n : Int) : ∀ c ∈ fmt_d n, NumChar c := by
  intro c hc
  unfold fmt_d at hc
  split at hc
  · rcases List.mem_cons.1 hc with h | h
    · exact Or.inr (Or.inl h)
    · exact Or.inl (natToDec_isDig _ c h)
  · exact Or.inl (natToDec_isDig _ c hc)

theorem fmt_2f_numChar (c : Int) : ∀ x ∈ fmt_2f (.ofCents c), NumChar x := by
  intro x hx
  unfold CDouble.ofCents fmt_2f at hx
  simp only [roundCents_neg_two, List.mem_append, List.mem_cons, List.mem_singleton] at hx
  rcases hx with (h | h) | h | h | h | h
  · split at h
    · simp at h
      exact Or.inr (Or.inl h)
    · simp at h
  · exact Or.inl (natToDec_isDig _ x h)
  · exact Or.inr (Or.inr h)
  · exact Or.inl (h ▸ isDig_digitChar (by omega))
  · exact Or.inl (h ▸ isDig_digitChar (by omega))
  · simp at h

theorem strstr_numeric_none (w : Char) (ws val : List Char) (hv : ∀ c ∈ val, NumChar c)
    (h1 : isdigit w = false) (h2 : w ≠ '-') (h3 : w ≠ '.') : strstr val (w :: ws) = none := by
  apply strstr_none_of_head_not_mem
  intro hm
  rcases hv w hm with h | h | h
  · rw [isdigit_of_isDig h] at h1
    exact absurd h1 (by decide)
  · exact h2 h
  · exact h3 h

theorem branch_id_line_append (id rest : List Char) :
    branch_id_line id ++ rest = ("BRANCH_ID:".toList ++ ' ' :: id) ++ '\n' :: rest := by
  unfold branch_id_line
  simp only [List.append_assoc]
  rfl

theorem records_line_append (n : Int) (rest : List Char) :
    records_line n ++ rest = ("RECORDS:".toList ++ ' ' :: fmt_d n) ++ '\n' :: rest := by
  unfold records_line
  simp only [List.append_assoc]
  rfl

theorem subtotal_line_append (x : CDouble) (rest : List Char) :
    subtotal_line x ++ rest = ("SUBTOTAL:".toList ++ ' ' :: fmt_2f x) ++ '\n' :: rest := by
  unfold subtotal_line
  simp only [List.append_assoc]
  rfl

theorem strstr_at_branch_id_line (id rest : List Char) :
    strstr (branch_id_line id ++ rest) "BRANCH_ID:".toList = some (branch_id_line id ++ rest) := by
  rw [branch_id_line_append, List.append_assoc]
  exact strstr_self_append _ _ _

theorem strstr_at_records_line (n : Int) (rest : List Char) :
    strstr (records_line n ++ rest) "RECORDS:".toList = some (records_line n ++ rest) := by
  rw [records_line_append, List.append_assoc]
  exact strstr_self_append _ _ _

theorem strstr_at_subtotal_line (x : CDouble) (rest : List Char) :
    strstr (subtotal_line x ++ rest) "SUBTOTAL:".toList = some (subtotal_line x ++ rest) := by
  rw [subtotal_line_append, List.append_assoc]
  exact strstr_self_append _ _ _

theorem strstr_branch_id_line_records (id rest : List Char)
    (h : strstr id "RECORDS:".toList = none) :
    strstr (branch_id_line id ++ rest) "RECORDS:".toList = strstr rest "RECORDS:".toList := by
  rw [branch_id_line_append]
  exact strstr_skip_line _ _ _ (by decide) (by decide) (by decide) (by decide) h

theorem strstr_branch_id_line_subtotal (id rest : List Char)
    (h : strstr id "SUBTOTAL:".toList = none) :
    strstr (branch_id_line id ++ rest) "SUBTOTAL:".toList = strstr rest "SUBTOTAL:".toList := by
  rw [branch_id_line_append]
  exact strstr_skip_line _ _ _ (by decide) (by decide) (by decide) (by decide) h

theorem strstr_records_line_branch_id (n : Int) (rest : List Char) :
    strstr (records_line n ++ rest) "BRANCH_ID:".toList = strstr rest "BRANCH_ID:".toList := by
  rw [records_line_append]
  exact strstr_skip_line _ _ _ (by decide) (by decide) (by decide) (by decide)
    (strstr_numeric_none 'B' _ _ (fmt_d_numChar n) (by decide) (by decide) (by decide))

theorem strstr_records_line_subtotal (n : Int) (rest : List Char) :
    strstr (records_line n ++ rest) "SUBTOTAL:".toList = strstr rest "SUBTOTAL:".toList := by
  rw [records_line_append]
  exact strstr_skip_line _ _ _ (by decide) (by decide) (by decide) (by decide)
    (strstr_numeric_none 'S' _ _ (fmt_d_numChar n) (by decide) (by decide) (by decide))

theorem strstr_subtotal_line_branch_id (c : Int) (rest : List Char) :
    strstr (subtotal_line (.ofCents c) ++ rest) "BRANCH_ID:".toList
      = strstr rest "BRANCH_ID:".toList := by
  rw [subtotal_line_append]
  exact strstr_skip_line _ _ _ (by decide) (by decide) (by decide) (by decide)
    (strstr_numeric_none 'B' _ _ (fmt_2f_numChar c) (by decide) (by decide) (by decide))

theorem strstr_subtotal_line_records (c : Int) (rest : List Char) :
    strstr (subtotal_line (.ofCents c) ++ rest) "RECORDS:".toList
      = strstr rest "RECORDS:".toList := by
  rw [subtotal_line_append]
  exact strstr_skip_line _ _ _ (by decide) (by decide) (by decide) (by decide)
    (strstr_numeric_none 'R' _ _ (fmt_2f_numChar c) (by decide) (by decide) (by decide))

theorem sscanf_branch_id_line (id rest : List Char) (hne : id ≠ [])
    (htok : ∀ c ∈ id, isspace c = false) :
    sscanf_branch_id (branch_id_line id ++ rest) = some id := by
  rw [branch_id_line_append, List.append_assoc]
  unfold sscanf_branch_id
  rw [matchLit_append]
  exact scanStr_token id rest hne htok

theorem sscanf_records_line (n : Int) (rest : List Char) :
    sscanf_records (records_line n ++ rest) = some (toInt32 n) := by
  rw [records_line_append, List.append_assoc]
  unfold sscanf_records
  rw [matchLit_append]
  exact scanInt_fmt_d n rest

theorem sscanf_subtotal_line (c : Int) (rest : List Char) :
    sscanf_subtotal (subtotal_line (.ofCents c) ++ rest) = some (.ofCents c) := by
  rw [subtotal_line_append, List.append_assoc]
  unfold sscanf_subtotal
  rw [matchLit_append]
  exact scanDouble_fmt_2f c rest

/-- A buffer in which each label is first met at the head of its own line decodes to the
values of the three lines. -/
theorem parse_reply_of_lines (buf id rB rR rS : List Char) (n c : Int)
    (hB : strstr buf "BRANCH_ID:".toList = some (branch_id_line id ++ rB))
    (hR : strstr buf "RECORDS:".toList = some (records_line n ++ rR))
    (hS : strstr buf "SUBTOTAL:".toList = some (subtotal_line (.ofCents c) ++ rS))
    (hne : id ≠ []) (htok : ∀ x ∈ id, isspace x = false) :
    parse_reply buf = some ⟨id, toInt32 n, .ofCents c⟩ := by
  unfold parse_reply
  simp only [hB, hR, hS, sscanf_branch_id_line id rB hne htok, sscanf_records_line,
    sscanf_subtotal_line]

/-! # The reply decoder -/

theorem parse_reply_canonical (id : List Char) (n c : Int) (rest : List Char)
    (hne : id ≠ []) (htok : ∀ x ∈ id, isspace x = false)
    (hR : strstr id "RECORDS:".toList = none) (hS : strstr id "SUBTOTAL:".toList = none) :
    parse_reply (branch_id_line id ++ (records_line n ++ (subtotal_line (.ofCents c) ++ rest)))
      = some ⟨id, toInt32 n, .ofCents c⟩ := by
  refine parse_reply_of_lines _ id _ (subtotal_line (.ofCents c) ++ rest) rest n c
    (strstr_at_branch_id_line _ _) ?_ ?_ hne htok
  · rw [strstr_branch_id_line_records _ _ hR]
    exact strstr_at_records_line _ _
  · rw [strstr_branch_id_line_subtotal _ _ hS, strstr_records_line_subtotal]
    exact strstr_at_subtotal_line _ _

theorem fmt_d_length_le (n : Int) (h0 : 0 ≤ n) (h : n < 2 ^ 31) : (fmt_d n).length ≤ 10 := by
  unfold fmt_d
  rw [if_neg (by omega)]
  apply natToDec_length_le 9
  norm_num at h ⊢
  omega

theorem fmt_2f_length_le (c : Int) (h : c.natAbs < 10 ^ 15) :
    (fmt_2f (.ofCents c)).length ≤ 17 := by
  unfold CDouble.ofCents fmt_2f
  simp only [roundCents_neg_two, List.length_append, List.length_cons, List.length_nil]
  have h1 : (natToDec (c.natAbs / 100)).length ≤ 13 := by
    apply natToDec_length_le 12
    norm_num at h ⊢
    omega
  have h2 : (if decide (c < 0) = true then ['-'] else ([] : List Char)).length ≤ 1 := by
    split <;> simp
  omega

set_option maxRecDepth 100000 in
/-- C1, as stated, fails: an identifier with a blank comes back cut at the blank, an
identifier that spells a later label makes the decoder reject the reply, and so does an
identifier of 500 characters, whose reply `handle_client` cuts at 511 characters. -/
theorem c1_round_trip_counterexample :
    parse_reply (handle_client_out "A B".toList 3 (.ofCents 1250))
        = some ⟨"A".toList, 3, .ofCents 1250⟩
      ∧ parse_reply (handle_client_out "A B".toList 3 (.ofCents 1250))
        ≠ some ⟨"A B".toList, 3, .ofCents 1250⟩
      ∧ parse_reply (handle_client_out "SUBTOTAL:".toList 3 (.ofCents 1250)) = none
      ∧ parse_reply (handle_client_out (List.replicate 500 'A') 3 (.ofCents 1250)) = none := by
  decide

/-- C1 (amended): a reply that `handle_client` formats from an identifier that is one
non-empty token without white space, holds neither `RECORDS:` nor `SUBTOTAL:` and has at
most 63 characters, from a record count `0 ≤ n < 2^31` and from an amount of `c`
hundredths with `|c| < 10^15`, is decoded by `parse_reply` to exactly that identifier,
count and amount. -/
theorem c1_round_trip (id : List Char) (n c : Int)
    (hne : id ≠ []) (htok : ∀ x ∈ id, isspace x = false)
    (hR : strstr id "RECORDS:".toList = none) (hS : strstr id "SUBTOTAL:".toList = none)
    (hlen : id.length ≤ 63) (hn0 : 0 ≤ n) (hn : n < 2 ^ 31) (hc : c.natAbs < 10 ^ 15) :
    parse_reply (handle_client_out id n (.ofCents c)) = some ⟨id, n, .ofCents c⟩ := by
  have hfit : (branch_id_line id ++ records_line n ++ subtotal_line (.ofCents c)
      ++ end_line).length ≤ 511 := by
    have h1 := fmt_d_length_le n hn0 hn
    have h2 := fmt_2f_length_le c hc
    have e1 : "BRANCH_ID: ".toList.length = 11 := rfl
    have e2 : "RECORDS: ".toList.length = 9 := rfl
    have e3 : "SUBTOTAL: ".toList.length = 10 := rfl
    have e4 : "END\n".toList.length = 4 := rfl
    simp only [branch_id_line, records_line, subtotal_line, end_line, List.length_append,
      List.length_cons, List.length_nil, e1, e2, e3, e4]
    omega
  rw [handle_client_out_eq, List.take_of_length_le hfit]
  simp only [List.append_assoc]
  rw [parse_reply_canonical id n c end_line hne htok hR hS,
    toInt32_of_range (by omega) hn]

theorem c1_round_trip_witness :
    parse_reply (handle_client_out "A".toList 3 (.ofCents 1250))
      = some ⟨"A".toList, 3, .ofCents 1250⟩ :=
  c1_round_trip "A".toList 3 1250 (by decide) (by decide) (by decide) (by decide)
    (by decide) (by decide) (by decide) (by decide)

/-- C2, as stated, fails: the field values `3x` and `1.0.0` are not numbers, yet the
buffer is decoded (to 3 records and the amount 1.0). -/
theorem c2_non_numeric_accepted :
    field_text "RECORDS:".toList "BRANCH_ID: A\nRECORDS: 3x\nSUBTOTAL: 1.0.0\nEND\n".toList
        = some "3x".toList
      ∧ numeric_text "3x".toList = false
      ∧ field_text "SUBTOTAL:".toList "BRANCH_ID: A\nRECORDS: 3x\nSUBTOTAL: 1.0.0\nEND\n".toList
        = some "1.0.0".toList
      ∧ numeric_text "1.0.0".toList = false
      ∧ parse_reply "BRANCH_ID: A\nRECORDS: 3x\nSUBTOTAL: 1.0.0\nEND\n".toList
        = some ⟨"A".toList, 3, .fin false 10 (-1)⟩ := by
  decide

theorem scanInt_none_of_not_starts (s : List Char) (h : starts_integer s = false) :
    scanInt s = none := by
  unfold starts_integer at h
  unfold scanInt
  cases hr : (splitSign (skipSpace s)).2 with
  | nil => simp [hr]
  | cons a t =>
    rw [hr] at h
    simp only at h
    simp [hr, List.takeWhile_cons, h]

theorem scanDouble_none_of_not_starts (s : List Char) (h : starts_double s = false) :
    scanDouble s = none := by
  unfold starts_double at h
  simp only [Bool.or_eq_false_iff] at h
  obtain ⟨⟨h1, h2⟩, h3⟩ := h
  have hdot : isdigit '.' = false := by decide
  unfold scanDouble scanUnsigned
  simp only [h1, h2, Bool.false_eq_true, if_false]
  cases hr : (splitSign (skipSpace s)).2 with
  | nil => simp
  | cons a t =>
    rw [hr] at h3
    by_cases ha : a = '.'
    · subst ha
      cases t with
      | nil => simp [List.takeWhile_cons, List.dropWhile_cons, hdot]
      | cons b u =>
        simp only at h3
        simp [List.takeWhile_cons, List.dropWhile_cons, hdot, h3]
    · have h4 : isdigit a = false := by
        cases t with
        | nil => simpa using h3
        | cons b u => simpa [ha] using h3
      simp [List.takeWhile_cons, List.dropWhile_cons, h4, ha]

theorem skipSpace_idem (s : List Char) : skipSpace (skipSpace s) = skipSpace s := by
  unfold skipSpace
  induction s with
  | nil => rfl
  | cons a t ih =>
    by_cases ha : isspace a = true
    · simp only [List.dropWhile_cons, ha, if_true]
      exact ih
    · simp only [List.dropWhile_cons, ha, Bool.false_eq_true, if_false]

theorem strstr_some_prefix (needle : List Char) :
    ∀ (buf p : List Char), strstr buf needle = some p → ∃ r, p = needle ++ r := by
  intro buf
  induction buf with
  | nil =>
    intro p h
    unfold strstr at h
    split at h
    · rename_i hn
      have : needle = [] := by simpa using hn
      subst this
      exact ⟨p, rfl⟩
    · exact absurd h (by simp)
  | cons a t ih =>
    intro p h
    unfold strstr at h
    split at h
    · rename_i hp
      have hp2 := List.isPrefixOf_iff_prefix.1 hp
      obtain ⟨r, hr⟩ := hp2
      refine ⟨r, ?_⟩
      rw [hr]
      exact (Option.some.inj h).symm
    · exact ih p h

theorem sscanf_records_none (buf p : List Char) (hp : strstr buf "RECORDS:".toList = some p)
    (h : starts_integer (p.drop 8) = false) : sscanf_records p = none := by
  obtain ⟨r, rfl⟩ := strstr_some_prefix _ buf p hp
  have hd : ("RECORDS:".toList ++ r).drop 8 = r := rfl
  rw [hd] at h
  unfold sscanf_records
  rw [matchLit_append]
  apply scanInt_none_of_not_starts
  unfold starts_integer at h ⊢
  rw [skipSpace_idem]
  exact h

theorem sscanf_subtotal_none (buf p : List Char) (hp : strstr buf "SUBTOTAL:".toList = some p)
    (h : starts_double (p.drop 9) = false) : sscanf_subtotal p = none := by
  obtain ⟨r, rfl⟩ := strstr_some_prefix _ buf p hp
  have hd : ("SUBTOTAL:".toList ++ r).drop 9 = r := rfl
  rw [hd] at h
  unfold sscanf_subtotal
  rw [matchLit_append]
  apply scanDouble_none_of_not_starts
  unfold starts_double at h ⊢
  rw [skipSpace_idem]
  exact h

theorem parse_reply_eq_some (buf : List Char) (r : BranchResult) (h : parse_reply buf = some r) :
    ∃ pB pR pS, strstr buf "BRANCH_ID:".toList = some pB
      ∧ sscanf_branch_id pB = some r.branch_id
      ∧ strstr buf "RECORDS:".toList = some pR ∧ sscanf_records pR = some r.records
      ∧ strstr buf "SUBTOTAL:".toList = some pS ∧ sscanf_subtotal pS = some r.subtotal := by
  unfold parse_reply at h
  split at h
  · exact absurd h (by simp)
  · rename_i pB hB
    split at h
    · exact absurd h (by simp)
    · rename_i id hid
      split at h
      · exact absurd h (by simp)
      · rename_i pR hR
        split at h
        · exact absurd h (by simp)
        · rename_i n hn
          split at h
          · exact absurd h (by simp)
          · rename_i pS hS
            split at h
            · exact absurd h (by simp)
            · rename_i x hx
              have e := Option.some.inj h
              subst e
              exact ⟨pB, pR, pS, hB, hid, hR, hn, hS, hx⟩

theorem parse_reply_none_of_records (buf : List Char)
    (h : ∀ p, strstr buf "RECORDS:".toList = some p → sscanf_records p = none) :
    parse_reply buf = none := by
  cases hr : parse_reply buf with
  | none => rfl
  | some r =>
    obtain ⟨pB, pR, pS, _, _, h3, h4, _, _⟩ := parse_reply_eq_some buf r hr
    rw [h pR h3] at h4
    exact absurd h4 (by simp)

theorem parse_reply_none_of_subtotal (buf : List Char)
    (h : ∀ p, strstr buf "SUBTOTAL:".toList = some p → sscanf_subtotal p = none) :
    parse_reply buf = none := by
  cases hr : parse_reply buf with
  | none => rfl
  | some r =>
    obtain ⟨pB, pR, pS, _, _, _, _, h5, h6⟩ := parse_reply_eq_some buf r hr
    rw [h pS h5] at h6
    exact absurd h6 (by simp)

/-- C2 (amended): `parse_reply` rejects every buffer in which one of the labels
`BRANCH_ID:`, `RECORDS:`, `SUBTOTAL:` does not occur, every buffer in which the text
after the first `RECORDS:` does not begin (after white space and an optional sign) with
a digit, and every buffer in which the text after the first `SUBTOTAL:` does not begin
(after white space and an optional sign) with a digit, a point and a digit, `inf` or
`nan`; the buffer with `RECORDS: oops` is rejected. -/
theorem c2_rejects (buf : List Char) :
    ((strstr buf "BRANCH_ID:".toList = none ∨ strstr buf "RECORDS:".toList = none
        ∨ strstr buf "SUBTOTAL:".toList = none) → parse_reply buf = none)
      ∧ (∀ p, strstr buf "RECORDS:".toList = some p → starts_integer (p.drop 8) = false →
          parse_reply buf = none)
      ∧ (∀ p, strstr buf "SUBTOTAL:".toList = some p → starts_double (p.drop 9) = false →
          parse_reply buf = none)
      ∧ parse_reply "BRANCH_ID: A\nRECORDS: oops\nSUBTOTAL: 1.0\nEND\n".toList = none := by
  refine ⟨?_, ?_, ?_, by decide⟩
  · rintro (h | h | h)
    · unfold parse_reply
      rw [h]
    · exact parse_reply_none_of_records buf
        (fun p hp => by rw [h] at hp; exact absurd hp (by simp))
    · exact parse_reply_none_of_subtotal buf
        (fun p hp => by rw [h] at hp; exact absurd hp (by simp))
  · intro p hp h
    exact parse_reply_none_of_records buf (fun q hq => by
      rw [hp] at hq
      exact (Option.some.inj hq) ▸ sscanf_records_none buf p hp h)
  · intro p hp h
    exact parse_reply_none_of_subtotal buf (fun q hq => by
      rw [hp] at hq
      exact (Option.some.inj hq) ▸ sscanf_subtotal_none buf p hp h)

theorem c2_rejects_witness :
    parse_reply "BRANCH_ID: A\nSUBTOTAL: 1.0\nEND\n".toList = none
      ∧ parse_reply "BRANCH_ID: A\nRECORDS: -x\nSUBTOTAL: 1.0\nEND\n".toList = none
      ∧ parse_reply "BRANCH_ID: A\nRECORDS: 3\nSUBTOTAL: .\nEND\n".toList = none :=
  ⟨(c2_rejects "BRANCH_ID: A\nSUBTOTAL: 1.0\nEND\n".toList).1 (Or.inr (Or.inl (by decide))),
   (c2_rejects "BRANCH_ID: A\nRECORDS: -x\nSUBTOTAL: 1.0\nEND\n".toList).2.1
     "RECORDS: -x\nSUBTOTAL: 1.0\nEND\n".toList (by decide) (by decide),
   (c2_rejects "BRANCH_ID: A\nRECORDS: 3\nSUBTOTAL: .\nEND\n".toList).2.2.1
     "SUBTOTAL: .\nEND\n".toList (by decide) (by decide)⟩

/-- C3: the reply of a branch whose identifier is empty is not rejected: white space
skipping runs over the end of the line and `%s` reads the next label as the identifier. -/
theorem c3_empty_identifier_accepted :
    handle_client_out [] 3 (.ofCents 100)
        = "BRANCH_ID: \nRECORDS: 3\nSUBTOTAL: 1.00\nEND\n".toList
      ∧ parse_reply "BRANCH_ID: \nRECORDS: 3\nSUBTOTAL: 1.00\nEND\n".toList
        = some ⟨"RECORDS:".toList, 3, .ofCents 100⟩ := by
  decide

/-- C4, as stated, fails: with the identifier `RECORDS:9` the canonical order decodes to
9 records and the order RECORDS, BRANCH_ID, SUBTOTAL to 3 records. -/
theorem c4_order_counterexample :
    parse_reply (branch_id_line "RECORDS:9".toList ++ records_line 3
        ++ subtotal_line (.ofCents 1250) ++ end_line)
      = some ⟨"RECORDS:9".toList, 9, .ofCents 1250⟩
    ∧ parse_reply (records_line 3 ++ branch_id_line "RECORDS:9".toList
        ++ subtotal_line (.ofCents 1250) ++ end_line)
      = some ⟨"RECORDS:9".toList, 3, .ofCents 1250⟩ := by
  decide

/-- C4 (amended): for an identifier that is one non-empty token without white space and
holds neither `RECORDS:` nor `SUBTOTAL:`, a record count in the range of `int` and an
amount in hundredths, each of the six orders of the three lines, followed by `END`,
decodes to that identifier, count and amount. -/
theorem c4_order_independent (id : List Char) (n c : Int)
    (hne : id ≠ []) (htok : ∀ x ∈ id, isspace x = false)
    (hR : strstr id "RECORDS:".toList = none) (hS : strstr id "SUBTOTAL:".toList = none)
    (hn0 : -(2 ^ 31) ≤ n) (hn : n < 2 ^ 31) :
    parse_reply (branch_id_line id ++ records_line n ++ subtotal_line (.ofCents c) ++ end_line)
        = some ⟨id, n, .ofCents c⟩
      ∧ parse_reply (branch_id_line id ++ subtotal_line (.ofCents c) ++ records_line n ++ end_line)
        = some ⟨id, n, .ofCents c⟩
      ∧ parse_reply (records_line n ++ branch_id_line id ++ subtotal_line (.ofCents c) ++ end_line)
        = some ⟨id, n, .ofCents c⟩
      ∧ parse_reply (records_line n ++ subtotal_line (.ofCents c) ++ branch_id_line id ++ end_line)
        = some ⟨id, n, .ofCents c⟩
      ∧ parse_reply (subtotal_line (.ofCents c) ++ branch_id_line id ++ records_line n ++ end_line)
        = some ⟨id, n, .ofCents c⟩
      ∧ parse_reply (subtotal_line (.ofCents c) ++ records_line n ++ branch_id_line id ++ end_line)
        = some ⟨id, n, .ofCents c⟩ := by
  have hv : toInt32 n = n := toInt32_of_range hn0 hn
  simp only [List.append_assoc]
  refine ⟨?_, ?_, ?_, ?_, ?_, ?_⟩
  · rw [parse_reply_of_lines _ id (records_line n ++ (subtotal_line (.ofCents c) ++ end_line))
      (subtotal_line (.ofCents c) ++ end_line) end_line n c ?_ ?_ ?_ hne htok, hv]
    · exact strstr_at_branch_id_line _ _
    · rw [strstr_branch_id_line_records _ _ hR]
      exact strstr_at_records_line _ _
    · rw [strstr_branch_id_line_subtotal _ _ hS, strstr_records_line_subtotal]
      exact strstr_at_subtotal_line _ _
  · rw [parse_reply_of_lines _ id (subtotal_line (.ofCents c) ++ (records_line n ++ end_line))
      end_line (records_line n ++ end_line) n c ?_ ?_ ?_ hne htok, hv]
    · exact strstr_at_branch_id_line _ _
    · rw [strstr_branch_id_line_records _ _ hR, strstr_subtotal_line_records]
      exact strstr_at_records_line _ _
    · rw [strstr_branch_id_line_subtotal _ _ hS]
      exact strstr_at_subtotal_line _ _
  · rw [parse_reply_of_lines _ id (subtotal_line (.ofCents c) ++ end_line)
      (branch_id_line id ++ (subtotal_line (.ofCents c) ++ end_line)) end_line n c ?_ ?_ ?_
      hne htok, hv]
    · rw [strstr_records_line_branch_id]
      exact strstr_at_branch_id_line _ _
    · exact strstr_at_records_line _ _
    · rw [strstr_records_line_subtotal, strstr_branch_id_line_subtotal _ _ hS]
      exact strstr_at_subtotal_line _ _
  · rw [parse_reply_of_lines _ id end_line
      (subtotal_line (.ofCents c) ++ (branch_id_line id ++ end_line))
      (branch_id_line id ++ end_line) n c ?_ ?_ ?_ hne htok, hv]
    · rw [strstr_records_line_branch_id, strstr_subtotal_line_branch_id]
      exact strstr_at_branch_id_line _ _
    · exact strstr_at_records_line _ _
    · rw [strstr_records_line_subtotal]
      exact strstr_at_subtotal_line _ _
  · rw [parse_reply_of_lines _ id (records_line n ++ end_line) end_line
      (branch_id_line id ++ (records_line n ++ end_line)) n c ?_ ?_ ?_ hne htok, hv]
    · rw [strstr_subtotal_line_branch_id]
      exact strstr_at_branch_id_line _ _
    · rw [strstr_subtotal_line_records, strstr_branch_id_line_records _ _ hR]
      exact strstr_at_records_line _ _
    · exact strstr_at_subtotal_line _ _
  · rw [parse_reply_of_lines _ id end_line (branch_id_line id ++ end_line)
      (records_line n ++ (branch_id_line id ++ end_line)) n c ?_ ?_ ?_ hne htok, hv]
    · rw [strstr_subtotal_line_branch_id, strstr_records_line_branch_id]
      exact strstr_at_branch_id_line _ _
    · rw [strstr_subtotal_line_records]
      exact strstr_at_records_line _ _
    · exact strstr_at_subtotal_line _ _

theorem c4_order_independent_witness :
    parse_reply (subtotal_line (.ofCents 1250) ++ records_line 3 ++ branch_id_line "A".toList
        ++ end_line) = some ⟨"A".toList, 3, .ofCents 1250⟩ :=
  (c4_order_independent "A".toList 3 1250 (by decide) (by decide) (by decide) (by decide)
    (by decide) (by decide)).2.2.2.2.2


/-! # The ledger writer -/

/-- C5: the scenario of the specification holds (the header and the result of branch A,
3 records and 12.50, give two lines), but a ledger that holds a NUL byte is cut there:
the call returns 0 and the bytes behind the NUL are dropped. -/
theorem c5_append_drops_after_nul :
    (update_main_csv (Sys.all_ok tm0) (fs_ledger "ts,branch,records,subtotal,ts2\n".toList)
        "main.csv".toList "A".toList 3 (.ofCents 1250)).1 = 0
      ∧ (update_main_csv (Sys.all_ok tm0) (fs_ledger "ts,branch,records,subtotal,ts2\n".toList)
          "main.csv".toList "A".toList 3 (.ofCents 1250)).2 "main.csv".toList
        = some ("ts,branch,records,subtotal,ts2\n".toList
            ++ "2024-03-09T07:05:00Z,A,3,12.50,2024-03-09T07:05:00Z\n".toList)
      ∧ (update_main_csv (Sys.all_ok tm0) (fs_ledger ("h\n".toList ++ NUL :: "x,y\n".toList))
          "main.csv".toList "A".toList 3 (.ofCents 1250)).1 = 0
      ∧ (update_main_csv (Sys.all_ok tm0) (fs_ledger ("h\n".toList ++ NUL :: "x,y\n".toList))
          "main.csv".toList "A".toList 3 (.ofCents 1250)).2 "main.csv".toList
        = some ("h\n".toList ++ "2024-03-09T07:05:00Z,A,3,12.50,2024-03-09T07:05:00Z\n".toList) := by
  decide

theorem tmpname_eq_self (p : List Char) (h : p.length = 511) : tmpname p = p := by
  unfold tmpname
  rw [← h]
  exact List.take_left' rfl

theorem tmpname_ne_self (p : List Char) (h : p.length ≠ 511) : tmpname p ≠ p := by
  intro e
  have := congrArg List.length e
  unfold tmpname at this
  rw [List.length_take, List.length_append] at this
  have e4 : ".tmp".toList.length = 4 := rfl
  rw [e4] at this
  omega

theorem long_path_length : long_path.length = 511 := by
  unfold long_path
  rw [List.length_append, List.length_cons, List.length_replicate, List.length_replicate]

/-- When the ledger path does not have exactly 511 characters, the temporary file is
another file: a call that does not return 0, and a stop after the temporary file is
written and before the rename, leave the ledger as it was. -/
theorem update_main_csv_failure_preserves (sys : Sys) (fs : FS) (p id : List Char) (n : Int)
    (x : CDouble) (hlen : p.length ≠ 511) :
    ((update_main_csv sys fs p id n x).1 ≠ 0 → (update_main_csv sys fs p id n x).2 p = fs p)
      ∧ (∀ fs1, write_tmp sys fs p id n x = some fs1 → fs1 p = fs p) := by
  have hne : p ≠ tmpname p := fun e => tmpname_ne_self p hlen e.symm
  have hcrash : ∀ fs1, write_tmp sys fs p id n x = some fs1 → fs1 p = fs p := by
    intro fs1 h
    unfold write_tmp at h
    split at h
    · exact absurd h (by simp)
    · split at h
      · exact absurd h (by simp)
      · split at h
        · exact absurd h (by simp)
        · split at h
          · exact absurd h (by simp)
          · rw [← Option.some.inj h]
            simp [FS.write, hne]
  refine ⟨?_, hcrash⟩
  intro h
  unfold update_main_csv at h ⊢
  cases hw : write_tmp sys fs p id n x with
  | none => rfl
  | some fs1 =>
    simp only [hw] at h ⊢
    by_cases hr : sys.rename_ok = true
    · simp [hr] at h
    · simp only [hr, Bool.false_eq_true, if_false]
      exact hcrash fs1 hw

/-- When the ledger path has exactly 511 characters, the temporary file is the ledger
itself and is rewritten in place. -/
theorem write_tmp_in_place (sys : Sys) (fs : FS) (p id bytes : List Char) (n : Int)
    (x : CDouble) (hlen : p.length = 511) (hb : fs p = some bytes)
    (h1 : sys.fopen_ok = true) (h2 : sys.flock_ok = true) (h3 : sys.malloc_ok = true)
    (h4 : sys.fopen_tmp_ok = true) :
    ∃ fs1, write_tmp sys fs p id n x = some fs1
      ∧ fs1 p = some (cstr bytes ++ ledger_row (iso_time sys.now) id n x) := by
  unfold write_tmp
  simp only [h1, h2, h3, h4, hb, if_true, Bool.not_true, Bool.false_eq_true, if_false]
  exact ⟨_, rfl, by simp [FS.write, tmpname_eq_self p hlen]⟩

/-- C7: with a ledger path of 511 characters the ledger is modified in place: stopped after
the temporary file is written and before the rename, and also when the rename fails and
the call returns -1, the ledger holds the new row. -/
theorem c7_ledger_rewritten_in_place :
    long_path.length = 511 ∧ tmpname long_path = long_path
      ∧ (∃ fs1, write_tmp (Sys.all_ok tm0) (FS.write (fun _ => none) long_path "h\n".toList)
            long_path "A".toList 3 (.ofCents 1250) = some fs1
          ∧ fs1 long_path
            = some ("h\n".toList ++ "2024-03-09T07:05:00Z,A,3,12.50,2024-03-09T07:05:00Z\n".toList))
      ∧ (update_main_csv ⟨true, true, true, true, false, tm0⟩
            (FS.write (fun _ => none) long_path "h\n".toList)
            long_path "A".toList 3 (.ofCents 1250)).1 = -1
      ∧ (update_main_csv ⟨true, true, true, true, false, tm0⟩
            (FS.write (fun _ => none) long_path "h\n".toList)
            long_path "A".toList 3 (.ofCents 1250)).2 long_path
          = some ("h\n".toList ++ "2024-03-09T07:05:00Z,A,3,12.50,2024-03-09T07:05:00Z\n".toList) := by
  have hfs : (FS.write (fun _ => none) long_path "h\n".toList) long_path = some "h\n".toList := by
    simp [FS.write]
  have hrow : cstr "h\n".toList ++ ledger_row (iso_time tm0) "A".toList 3 (.ofCents 1250)
      = "h\n".toList ++ "2024-03-09T07:05:00Z,A,3,12.50,2024-03-09T07:05:00Z\n".toList := by
    decide
  obtain ⟨fs1, hw, hfs1⟩ := write_tmp_in_place (Sys.all_ok tm0) _ long_path "A".toList
    "h\n".toList 3 (.ofCents 1250) long_path_length hfs rfl rfl rfl rfl
  obtain ⟨fs2, hw2, hfs2⟩ := write_tmp_in_place ⟨true, true, true, true, false, tm0⟩ _ long_path
    "A".toList "h\n".toList 3 (.ofCents 1250) long_path_length hfs rfl rfl rfl rfl
  refine ⟨long_path_length, tmpname_eq_self _ long_path_length, ⟨fs1, hw, ?_⟩, ?_, ?_⟩
  · rw [hfs1]
    exact congrArg some hrow
  · unfold update_main_csv
    rw [hw2]
    rfl
  · unfold update_main_csv
    rw [hw2]
    simp only [Bool.false_eq_true, if_false]
    rw [hfs2]
    exact congrArg some hrow

/-! # The wait loop -/

end SalesAggregator
